import Mathlib

/-!  Verification of the request-coalescing queues of the item-picker app.

Shallow embedding of:
* `BatchQueryQueue`, `AddQueue`, `LatestPayloadQueue` (client, `src/api/queues.ts`);
* `createQueryBatcher`, `createSelectionBatcher`, `createAddBatcher`,
  `sanitizeIds`, `buildAvailableResult`, `hasId` (server, `server/index.js`).

Conventions of the embedding:
* a promise's resolver pair is identified by a natural number (its waiter id);
  settling a waiter is recorded as a pair `(waiterId, Outcome)`;
* a JS `Map` is an association list preserving insertion order
  (`Map.set` on an existing key updates in place, otherwise appends);
* a JS `Set` of numbers is a `Finset Int`;
* JS numbers used as identifiers are `Int` (the `Number.isInteger` well-formedness
  check together with positivity becomes `0 < id`);
* the timer handle is a `Bool` (armed or not): `setTimeout` assignment arms it,
  `clearTimeout` plus the `null` assignment clears it;
* `flush` is a pure function from the captured state and the dispatcher's
  outcome to the next state, the list of dispatcher invocations made
  (`calls`), and the list of waiter settlements (`settled`);
* the server constant `BASE_MAX_ID = 1_000_000` is kept as an explicit
  parameter `baseMax` of the server-side functions, with `BASE_MAX_ID` defined
  below as the production value.
-/

/-- Errors a waiter can be failed with (messages in the source are Russian
string literals; we keep them as symbolic constructors, with the dispatcher's
own error carried verbatim). -/

inductive QueueError (E : Type) where
  /-- `'Запрос должен содержать ключ'` — request without a key. -/
  | invalidKey
  /-- `'ID должен быть положительным целым числом'` — invalid id at enqueue. -/
  | invalidId
  /-- `'Сервер не вернул результат для запроса'` — dispatcher omitted a key. -/
  | missingResult
  /-- the dispatcher itself threw or rejected; the error propagates verbatim. -/
  | dispatchFailed (e : E)
deriving DecidableEq

/-- The single eventual outcome of a waiter. -/

inductive Outcome (R E : Type) where
  | ok (v : R)
  | err (e : QueueError E)
deriving DecidableEq

/-- Result of one `flush` run: the state left behind, the list of dispatcher
invocations performed during the flush, and the waiters settled. -/

structure FlushOut (σ γ ρ : Type) where
  state : σ
  calls : List γ
  settled : List ρ
deriving DecidableEq

/-! ## `BatchQueryQueue` (client; the spec's KeyedLatestQueue) -/

/-- One pending entry of `BatchQueryQueue`: the (most recent) request for a key
and the resolvers accumulated for that key, in arrival order. -/

structure BQEntry (Req : Type) where
  request : Req
  resolvers : List Nat
deriving DecidableEq

/-- State of a `BatchQueryQueue` instance: the pending `Map` keyed by request
key (insertion-ordered) and the timer handle. -/

structure BQState (Req : Type) where
  pending : List (String × BQEntry Req)
  timer : Bool
deriving DecidableEq

/-- A freshly constructed queue: empty pending map, no timer. -/

def BQState.init (Req : Type) : BQState Req := ⟨[], false⟩

/-- `Map` update performed by `BatchQueryQueue.enqueue`: if the key is present,
overwrite `request` and append the resolver; otherwise insert a new entry. -/

def bqInsert {Req : Type} (reqKey : Req → String) (req : Req) (w : Nat) :
    List (String × BQEntry Req) → List (String × BQEntry Req)
  | [] => [(reqKey req, ⟨req, [w]⟩)]
  | (k, e) :: rest =>
    if k = reqKey req then (k, ⟨req, e.resolvers ++ [w]⟩) :: rest
    else (k, e) :: bqInsert reqKey req w rest

/-- State transition of `BatchQueryQueue.enqueue`: a request with an empty key
is rejected synchronously and the state is untouched; otherwise the pending map
is updated and `schedule()` arms the timer if not already armed. -/

def bqEnqueueState {Req : Type} (reqKey : Req → String) (s : BQState Req)
    (req : Req) (w : Nat) : BQState Req :=
  if reqKey req = "" then s
  else { pending := bqInsert reqKey req w s.pending, timer := true }

/-- `BatchQueryQueue.enqueue`: next state together with any synchronous
settlement (the `ValidationError` rejection for a keyless request). -/

def bqEnqueue {Req Res E : Type} (reqKey : Req → String) (s : BQState Req)
    (req : Req) (w : Nat) : BQState Req × List (Nat × Outcome Res E) :=
  (bqEnqueueState reqKey s req w,
   if reqKey req = "" then [(w, .err .invalidKey)] else [])

/-- A sequence of `enqueue` calls (state part). -/

def bqEnqueueMany {Req : Type} (reqKey : Req → String) (s : BQState Req)
    (items : List (Req × Nat)) : BQState Req :=
  items.foldl (fun st p => bqEnqueueState reqKey st p.1 p.2) s

/-- `BatchQueryQueue.flush`: with nothing pending, clear the timer and return;
otherwise snapshot and clear the entries, cancel the timer, invoke the
dispatcher once with the one-per-key requests, then resolve every resolver of
each entry with that key's result (failing them with `missingResult` when the
response map omits the key), or fail all captured resolvers uniformly when the
dispatcher itself fails. -/

def bqFlush {Req Res E : Type}
    (dispatcher : List Req → Except E (String → Option Res)) (s : BQState Req) :
    FlushOut (BQState Req) (List Req) (Nat × Outcome Res E) :=
  if s.pending.isEmpty then ⟨⟨[], false⟩, [], []⟩
  else
    let entries := s.pending
    let requests := entries.map fun p => p.2.request
    match dispatcher requests with
    | .ok responseMap =>
        ⟨⟨[], false⟩, [requests],
          entries.flatMap fun p =>
            match responseMap p.1 with
            | none => p.2.resolvers.map fun w => (w, .err .missingResult)
            | some result => p.2.resolvers.map fun w => (w, .ok result)⟩
    | .error e =>
        ⟨⟨[], false⟩, [requests],
          entries.flatMap fun p =>
            p.2.resolvers.map fun w => (w, .err (.dispatchFailed e))⟩

/-! ## `LatestPayloadQueue` (client; the spec's SinglePayloadQueue) -/

/-- State of a `LatestPayloadQueue` instance: at most one pending payload with
its accumulated resolvers, plus the timer handle. -/

structure LPState (P : Type) where
  pending : Option (P × List Nat)
  timer : Bool
deriving DecidableEq

/-- A freshly constructed queue: nothing pending, no timer. -/

def LPState.init (P : Type) : LPState P := ⟨none, false⟩

/-- `LatestPayloadQueue.enqueue`: overwrite the pending payload (or create it)
and append the resolver; `schedule()` arms the timer if not armed. -/

def lpEnqueue {P : Type} (s : LPState P) (payload : P) (w : Nat) : LPState P :=
  match s.pending with
  | some (_, ws) => ⟨some (payload, ws ++ [w]), true⟩
  | none => ⟨some (payload, [w]), true⟩

/-- `LatestPayloadQueue.flush`: a no-op when nothing is pending; otherwise take
the payload and the full resolver list, clear the state and timer, dispatch the
final payload once and settle every captured resolver with the one result (or
the one error). -/

def lpFlush {P R E : Type} (dispatcher : P → Except E R) (s : LPState P) :
    FlushOut (LPState P) P (Nat × Outcome R E) :=
  match s.pending with
  | none => ⟨⟨none, false⟩, [], []⟩
  | some (payload, ws) =>
    match dispatcher payload with
    | .ok result => ⟨⟨none, false⟩, [payload], ws.map fun w => (w, .ok result)⟩
    | .error e =>
        ⟨⟨none, false⟩, [payload], ws.map fun w => (w, .err (.dispatchFailed e))⟩

/-! ## `createSelectionBatcher` (server-side SinglePayloadQueue)

The dispatch step of this batcher is inline: it commits `latest` to the
module-level `selectedIds` store and resolves every waiter with the committed
selection. -/

/-- Batcher-local state of `createSelectionBatcher`. -/

structure SelState where
  latest : Option (List Int)
  resolvers : List Nat
  timer : Bool
deriving DecidableEq

/-- Initial batcher state: no pending selection, no resolvers, no timer. -/

def SelState.init : SelState := ⟨none, [], false⟩

/-- `createSelectionBatcher.enqueue`: overwrite `latest`, append the resolver,
arm the timer if not armed. -/

def selEnqueue (s : SelState) (nextSelection : List Int) (w : Nat) : SelState :=
  ⟨some nextSelection, s.resolvers ++ [w], true⟩

/-- `createSelectionBatcher.flush`: commit `latest` (if any) to the
`selectedIds` store and resolve every waiter with the (now current) selection.
Returns the next batcher state, the next store value, and the settlements. -/

def selFlush (selectedIds : List Int) (s : SelState) :
    SelState × List Int × List (Nat × List Int) :=
  match s.latest with
  | none => (⟨none, [], false⟩, selectedIds, s.resolvers.map fun w => (w, selectedIds))
  | some latest => (⟨none, [], false⟩, latest, s.resolvers.map fun w => (w, latest))

/-! ## `AddQueue` (client-side add batcher) -/

/-- Result shape delivered to `AddQueue` callers. -/

structure AddQueueResult where
  id : Int
  success : Bool
  message : String
deriving DecidableEq

/-- Dispatcher response shape of the add batch (`{ added, rejected }`). -/

structure AddResponse where
  added : List Int
  rejected : List (Int × String)
deriving DecidableEq

/-- State of an `AddQueue` instance: the pending `Map` keyed by id
(insertion-ordered, each id holding its accumulated resolvers) and the timer
handle. -/

structure AQState where
  pending : List (Int × List Nat)
  timer : Bool
deriving DecidableEq

/-- A freshly constructed queue: empty pending map, no timer. -/

def AQState.init : AQState := ⟨[], false⟩

/-- `Map` update performed by `AddQueue.enqueue`: append the resolver to an
existing entry for the id, else insert a new entry. -/

def aqInsert (id : Int) (w : Nat) : List (Int × List Nat) → List (Int × List Nat)
  | [] => [(id, [w])]
  | (i, ws) :: rest =>
    if i = id then (i, ws ++ [w]) :: rest
    else (i, ws) :: aqInsert id w rest

/-- State transition of `AddQueue.enqueue`: a non-positive id is rejected
synchronously and the state is untouched; otherwise the pending map is updated
and the timer armed if not armed. -/

def aqEnqueueState (s : AQState) (id : Int) (w : Nat) : AQState :=
  if id ≤ 0 then s
  else ⟨aqInsert id w s.pending, true⟩

/-- `AddQueue.enqueue`: next state plus any synchronous rejection. -/

def aqEnqueue {E : Type} (s : AQState) (id : Int) (w : Nat) :
    AQState × List (Nat × Outcome AddQueueResult E) :=
  (aqEnqueueState s id w, if id ≤ 0 then [(w, .err .invalidId)] else [])

/-- The `rejectedMap` lookup of `AddQueue.flush`: the map is built by `set`
over the rejected records in order, so a later record for the same id wins. -/

def rejectedLookup (records : List (Int × String)) (id : Int) : Option String :=
  records.foldl (fun acc p => if p.1 = id then some p.2 else acc) none

/-- `AddQueue.flush`: snapshot and clear the entries, cancel the timer,
dispatch the distinct pending ids once, then settle each id's resolvers with a
success payload (id in `added`) or a failure payload carrying the rejection
reason; a dispatcher failure fails every captured resolver uniformly. -/

def aqFlush {E : Type} (dispatcher : List Int → Except E AddResponse)
    (s : AQState) : FlushOut AQState (List Int) (Nat × Outcome AddQueueResult E) :=
  if s.pending.isEmpty then ⟨⟨[], false⟩, [], []⟩
  else
    let entries := s.pending
    let ids := entries.map (·.1)
    match dispatcher ids with
    | .ok response =>
        ⟨⟨[], false⟩, [ids],
          entries.flatMap fun p =>
            if p.1 ∈ response.added then
              p.2.map fun w =>
                (w, .ok ⟨p.1, true, "ID " ++ toString p.1 ++ " успешно добавлен"⟩)
            else
              p.2.map fun w =>
                (w, .ok ⟨p.1, false,
                  (rejectedLookup response.rejected p.1).getD "ID не был добавлен"⟩)⟩
    | .error e =>
        ⟨⟨[], false⟩, [ids],
          entries.flatMap fun p => p.2.map fun w => (w, .err (.dispatchFailed e))⟩

/-! ## `createAddBatcher` (server-side AccumulatingSetQueue)

The server keeps the overflow identifiers in the module-level `Set`
`addedIds`; the batcher's flush classifies every requested id against the base
range `1..BASE_MAX_ID` and that set, merges the accepted ids into it in one
batch, and answers each pending request with its own slice of the outcome. -/

/-- `'ID должен быть положительным целым числом'`. -/

def formatReason : String := "ID должен быть положительным целым числом"

/-- `'ID уже существует в базовом наборе'`. -/

def baseReason : String := "ID уже существует в базовом наборе"

/-- `'ID уже добавлен'`. -/

def alreadyAddedReason : String := "ID уже добавлен"

/-- The server constant `BASE_MAX_ID = 1_000_000`; server functions below take
the bound as a parameter `baseMax` and are instantiated with this value. -/

def BASE_MAX_ID : Int := 1000000

/-- One pending request of `createAddBatcher`: the caller's id list, its `Set`
form, and the caller's single resolver. -/

structure AReq where
  ids : List Int
  idSet : Finset Int
  waiter : Nat
deriving DecidableEq

/-- Batcher-local state of `createAddBatcher`. -/

structure ABState where
  pendingRequests : List AReq
  timer : Bool
deriving DecidableEq

/-- Initial batcher state. -/

def ABState.init : ABState := ⟨[], false⟩

/-- `createAddBatcher.enqueue`: push a fresh pending request (ids, their set
form, one resolver) and arm the timer if not armed. -/

def abEnqueue (s : ABState) (ids : List Int) (w : Nat) : ABState :=
  ⟨s.pendingRequests ++ [⟨ids, ids.toFinset, w⟩], true⟩

/-- One iteration of the classification loop of `createAddBatcher.flush`,
accumulating the `toAdd` set and the `rejectedGlobal` list. -/

def classifyStep (baseMax : Int) (addedIds : Finset Int)
    (acc : Finset Int × List (Int × String)) (raw : Int) :
    Finset Int × List (Int × String) :=
  if raw ≤ 0 then (acc.1, acc.2 ++ [(raw, formatReason)])
  else if 1 ≤ raw ∧ raw ≤ baseMax then (acc.1, acc.2 ++ [(raw, baseReason)])
  else if raw ∈ addedIds then (acc.1, acc.2 ++ [(raw, alreadyAddedReason)])
  else (insert raw acc.1, acc.2)

/-- Everything `createAddBatcher.flush` produces: the overflow set after the
batch mutation, the next batcher state, the batch's `added` list, the global
rejected list, and the per-caller responses. -/

structure ABFlushOut where
  addedIds : Finset Int
  state : ABState
  batchAdded : List Int
  rejectedGlobal : List (Int × String)
  responses : List (Nat × AddResponse)
deriving DecidableEq

/-- `createAddBatcher.flush`: with nothing pending, clear the timer and leave
the store untouched; otherwise concatenate every request's ids, classify them
in one pass, sort the accepted set ascending, merge it into `addedIds` as one
batch, and resolve every pending request with the accepted and rejected
records restricted to its own `idSet`. -/

def abFlush (baseMax : Int) (addedIds : Finset Int) (s : ABState) : ABFlushOut :=
  if s.pendingRequests.isEmpty then ⟨addedIds, ⟨[], false⟩, [], [], []⟩
  else
    let requested := s.pendingRequests.flatMap (·.ids)
    let cls := requested.foldl (classifyStep baseMax addedIds) (∅, [])
    let added := cls.1.sort (· ≤ ·)
    { addedIds := addedIds ∪ cls.1
      state := ⟨[], false⟩
      batchAdded := added
      rejectedGlobal := cls.2
      responses := s.pendingRequests.map fun req =>
        (req.waiter,
         ⟨added.filter fun a => decide (a ∈ req.idSet),
          cls.2.filter fun p => decide (p.1 ∈ req.idSet)⟩) }

/-! ### Spec-side classification (for the refinement statement of C4) -/

/-- The four classes of the spec's classification rules. -/

inductive Classification where
  | accepted
  | rejectedFormat
  | rejectedBase
  | rejectedAlreadyAdded
deriving DecidableEq

/-- Modelled from the spec's words (§4.2): classify one candidate, applying
the rules in their stated total order — invalid format, then base range, then
already added, else accepted. -/

def specClassify (baseMax : Int) (addedIds : Finset Int) (raw : Int) :
    Classification :=
  if raw ≤ 0 then .rejectedFormat
  else if 1 ≤ raw ∧ raw ≤ baseMax then .rejectedBase
  else if raw ∈ addedIds then .rejectedAlreadyAdded
  else .accepted

/-- The rejection reason a class carries (none for an accepted item). -/

def reasonOf : Classification → Option String
  | .accepted => none
  | .rejectedFormat => some formatReason
  | .rejectedBase => some baseReason
  | .rejectedAlreadyAdded => some alreadyAddedReason

/-- The rejected record one candidate contributes, if any. -/

def specReject (baseMax : Int) (addedIds : Finset Int) (raw : Int) :
    Option (Int × String) :=
  (reasonOf (specClassify baseMax addedIds raw)).map fun r => (raw, r)

/-- A sequence of `createAddBatcher.enqueue` calls (each a pair of the caller's
id list and its waiter). -/

def abEnqueueMany (s : ABState) (calls : List (List Int × Nat)) : ABState :=
  calls.foldl (fun st c => abEnqueue st c.1 c.2) s

/-- Running a sequence of whole flush cycles over the shared overflow set. -/

def runAddCycles (baseMax : Int) (A : Finset Int) (cycles : List ABState) :
    Finset Int :=
  cycles.foldl (fun acc s => (abFlush baseMax acc s).addedIds) A

/-! ## Directory store helpers (server) -/

/-- `hasId`: the id exists in the logical identifier space — positive and
either within the base range `1..baseMax` or in the overflow set. -/

def hasId (baseMax : Int) (addedIds : Finset Int) (rawId : Int) : Bool :=
  if rawId ≤ 0 then false
  else if 1 ≤ rawId ∧ rawId ≤ baseMax then true
  else decide (rawId ∈ addedIds)

/-- One iteration of the `sanitizeIds` loop, accumulating the `seen` set and
the surviving ids in order. -/

def sanitizeStep (baseMax : Int) (addedIds : Finset Int)
    (acc : Finset Int × List Int) (raw : Int) : Finset Int × List Int :=
  if raw ≤ 0 then acc
  else if ¬ hasId baseMax addedIds raw then acc
  else if raw ∈ acc.1 then acc
  else (insert raw acc.1, acc.2 ++ [raw])

/-- `sanitizeIds` (server): keep only well-formed, existing, first-occurrence
ids, silently dropping the rest. -/

def sanitizeIds (baseMax : Int) (addedIds : Finset Int) (ids : List Int) :
    List Int :=
  (ids.foldl (sanitizeStep baseMax addedIds) (∅, [])).2

/-- `POST /api/selection`: the stored selection becomes the sanitized request
body (directly in `server/index.js`; through the selection batcher's committed
`latest` in the batched server, cf. `selFlush`). -/

def postSelection (baseMax : Int) (addedIds : Finset Int) (body : List Int) :
    List Int :=
  sanitizeIds baseMax addedIds body

/-- Modelled from the claim's words: keep the first occurrence of every
element, in order. -/

def firstDedup : List Int → List Int
  | [] => []
  | a :: l => a :: firstDedup (l.filter fun x => decide (x ≠ a))
termination_by l => l.length
decreasing_by
  simp only [List.length_cons]
  exact Nat.lt_succ_of_le (l.length_filter_le _)

/-- Recursive form of the `sanitizeIds` loop (with an explicit `seen` set). -/

def sanitizeRec (baseMax : Int) (addedIds seen : Finset Int) :
    List Int → List Int
  | [] => []
  | r :: t =>
    if hasId baseMax addedIds r = true ∧ r ∉ seen then
      r :: sanitizeRec baseMax addedIds (insert r seen) t
    else sanitizeRec baseMax addedIds seen t

/-! ## Pagination over the identifier space (server) -/

/-- `clampOffset`. -/

def clampOffset (value : Int) : Nat :=
  if 0 ≤ value then value.toNat else 0

/-- `clampLimit` (default page limit 20, cap 200). -/

def clampLimit (value : Int) : Nat :=
  if value ≤ 0 then 20 else (min value 200).toNat

/-- Whether the character list `sub` occurs at the start of `hay`. -/

def listStarts : List Char → List Char → Bool
  | _, [] => true
  | [], _ :: _ => false
  | a :: as, b :: bs => a = b && listStarts as bs

/-- Whether `sub` occurs anywhere inside `hay` (JS `String.includes`). -/

def listHasSub : List Char → List Char → Bool
  | [], sub => sub.isEmpty
  | h :: t, sub => listStarts (h :: t) sub || listHasSub t sub

/-- The `matchesFilter` predicate: an empty (trimmed) filter matches every id;
otherwise the filter must occur inside the id's decimal string. -/

def matchesFilter (filter : String) (id : Int) : Bool :=
  let normalizedFilter := filter.trim
  if normalizedFilter = "" then true
  else listHasSub (toString id).data normalizedFilter.data

/-- The base identifier range `1..baseMax` in ascending order (the `for` loop
of `buildAvailableResult`). -/

def baseRange (baseMax : Int) : List Int :=
  (List.range baseMax.toNat).map fun n : Nat => (n : Int) + 1

/-- An `{ items, total }` page. -/

structure PageResult where
  items : List Int
  total : Nat
deriving DecidableEq

/-- The `consider` closure of `buildAvailableResult`: skip selected and
non-matching ids; push an id while inside the `[offset, offset+limit)` window;
always count it into `total`. -/

def considerStep (selectedLookup : Finset Int) (matchp : Int → Bool)
    (safeOffset safeLimit : Nat) (acc : List Int × Nat) (id : Int) :
    List Int × Nat :=
  if id ∈ selectedLookup then acc
  else if ¬ matchp id then acc
  else
    (if safeOffset ≤ acc.2 ∧ acc.1.length < safeLimit then acc.1 ++ [id]
     else acc.1,
     acc.2 + 1)

/-- `buildAvailableResult`: run `consider` over the base range and then the
sorted overflow ids. -/

def buildAvailableResult (baseMax : Int) (addedIds selectedLookup : Finset Int)
    (filter : String) (offset limit : Int) : PageResult :=
  let r := (baseRange baseMax ++ addedIds.sort (· ≤ ·)).foldl
      (considerStep selectedLookup (matchesFilter filter) (clampOffset offset)
        (clampLimit limit))
      ([], 0)
  ⟨r.1, r.2⟩

/-- `buildSelectedResult`: the same windowed walk over the stored selection in
selection order (no selected-lookup exclusion). -/

def buildSelectedResult (selectedIds : List Int) (filter : String)
    (offset limit : Int) : PageResult :=
  let safeOffset := clampOffset offset
  let safeLimit := clampLimit limit
  let r := selectedIds.foldl
      (fun acc id =>
        if ¬ matchesFilter filter id then acc
        else
          (if safeOffset ≤ acc.2 ∧ acc.1.length < safeLimit then acc.1 ++ [id]
           else acc.1,
           acc.2 + 1))
      ([], 0)
  ⟨r.1, r.2⟩

/-! ## `createQueryBatcher` (server-side KeyedLatestQueue)

Its inline dispatch collapses the pending callers' queries into one query per
key (last one wins), evaluates each against the store, and answers every
caller with the results for the keys that caller asked about.  The response
object is modelled as the list of `(key, result)` pairs in the caller's query
order. -/

/-- One query of `POST /api/query`. -/

structure SQuery where
  key : String
  qtype : String
  filter : String
  offset : Int
  limit : Int
deriving DecidableEq

/-- Evaluation of one collected query against the store (`undefined` — `none`
— for an unknown query type). -/

def evalQuery (baseMax : Int) (addedIds selectedLookup : Finset Int)
    (selectedIds : List Int) (q : SQuery) : Option PageResult :=
  if q.qtype = "available" then
    some (buildAvailableResult baseMax addedIds selectedLookup q.filter
      q.offset q.limit)
  else if q.qtype = "selected" then
    some (buildSelectedResult selectedIds q.filter q.offset q.limit)
  else if q.qtype = "selectionFull" then
    some ⟨selectedIds, selectedIds.length⟩
  else none

/-- Batcher-local state of `createQueryBatcher`: each pending item is one
caller's query list with its resolver. -/

structure QBState where
  pending : List (List SQuery × Nat)
  timer : Bool
deriving DecidableEq

/-- Initial batcher state. -/

def QBState.init : QBState := ⟨[], false⟩

/-- `createQueryBatcher.enqueue`: push the caller's queries and resolver; arm
the timer if not armed. -/

def qbEnqueue (s : QBState) (queries : List SQuery) (w : Nat) : QBState :=
  ⟨s.pending ++ [(queries, w)], true⟩

/-- The `keyToQuery` map update: a later query for the same key overwrites the
earlier one in place. -/

def keyUpsert (q : SQuery) : List (String × SQuery) → List (String × SQuery)
  | [] => [(q.key, q)]
  | (k, e) :: rest =>
    if k = q.key then (k, q) :: rest else (k, e) :: keyUpsert q rest

/-- Collect one deduplicated query per non-empty key over all pending items. -/

def collectQueries (pending : List (List SQuery × Nat)) :
    List (String × SQuery) :=
  pending.foldl
    (fun m item => item.1.foldl
      (fun m q => if q.key = "" then m else keyUpsert q m) m)
    []

/-- `createQueryBatcher.flush`: a no-op when nothing is pending; otherwise
evaluate the collected queries once against the store and resolve each caller
with the results for its own keyed queries. -/

def qbFlush (baseMax : Int) (addedIds selectedLookup : Finset Int)
    (selectedIds : List Int) (s : QBState) :
    QBState × List (Nat × List (String × PageResult)) :=
  if s.pending.isEmpty then (⟨[], false⟩, [])
  else
    let results := (collectQueries s.pending).filterMap fun p =>
      (evalQuery baseMax addedIds selectedLookup selectedIds p.2).map
        fun r => (p.1, r)
    (⟨[], false⟩,
     s.pending.map fun item =>
       (item.2,
        item.1.filterMap fun q =>
          if q.key = "" then none
          else (results.lookup q.key).map fun r => (q.key, r)))

/-! ## Timer discipline (C6)

An operation on a queue instance is either an `enqueue` or the timer callback
firing (`fire`, carrying whatever the dispatcher environment contributes).
The single timer handle of each instance is the `timer : Bool` field — at most
one outstanding timer is structural — and the invariant proved below is that
a reachable state has the timer armed exactly when its pending state is
non-empty. -/

/-- An operation on a queue instance: an enqueue of `ι`, or the timer firing
with dispatcher environment `δ`. -/

inductive QOp (ι δ : Type) where
  | enq (x : ι)
  | fire (d : δ)

/-- Step function of the client `BatchQueryQueue`. -/

def bqStep {Req Res E : Type} (reqKey : Req → String) (s : BQState Req) :
    QOp (Req × Nat) (List Req → Except E (String → Option Res)) → BQState Req
  | .enq p => bqEnqueueState reqKey s p.1 p.2
  | .fire D => (bqFlush D s).state

/-- Step function of the client `AddQueue`. -/

def aqStep {E : Type} (s : AQState) :
    QOp (Int × Nat) (List Int → Except E AddResponse) → AQState
  | .enq p => aqEnqueueState s p.1 p.2
  | .fire D => (aqFlush D s).state

/-- Step function of the client `LatestPayloadQueue`. -/

def lpStep {P R E : Type} (s : LPState P) :
    QOp (P × Nat) (P → Except E R) → LPState P
  | .enq p => lpEnqueue s p.1 p.2
  | .fire D => (lpFlush D s).state

/-- Step function of the server `createAddBatcher` (the fire op carries the
overflow set the flush runs against). -/

def abStep (baseMax : Int) (s : ABState) :
    QOp (List Int × Nat) (Finset Int) → ABState
  | .enq c => abEnqueue s c.1 c.2
  | .fire A => (abFlush baseMax A s).state

/-- Step function of the server `createSelectionBatcher` (the fire op carries
the current stored selection). -/

def selStep (s : SelState) : QOp (List Int × Nat) (List Int) → SelState
  | .enq c => selEnqueue s c.1 c.2
  | .fire store => (selFlush store s).1

/-- Step function of the server `createQueryBatcher` (the fire op carries the
store: overflow set, selection lookup, selection list). -/

def qbStep (baseMax : Int) (s : QBState) :
    QOp (List SQuery × Nat) (Finset Int × Finset Int × List Int) → QBState
  | .enq c => qbEnqueue s c.1 c.2
  | .fire d => (qbFlush baseMax d.1 d.2.1 d.2.2 s).1

/-! ## Lemmas and claim theorems -/

/-! ### Helper lemmas for `BatchQueryQueue` -/

lemma getLastD_map {α β : Type} (f : α → β) :
    ∀ (l : List α) (a : α), (l.map f).getLastD (f a) = f (l.getLastD a) := by
  intro l
  induction l with
  | nil => intro a; rfl
  | cons b t ih =>
      intro a
      simp only [List.map_cons, List.getLastD_cons]
      exact ih b

/-- Repeated enqueues carrying one non-empty key `k`, starting from a state
whose pending map is the single entry for `k`: the entry keeps its position,
its request becomes the most recent one, and the resolvers accumulate in
order. -/

lemma bqEnqueueMany_single_key {Req : Type} (reqKey : Req → String)
    (k : String) (hk : k ≠ "") :
    ∀ (items : List (Req × Nat)), (∀ p ∈ items, reqKey p.1 = k) →
    ∀ (r : Req) (ws : List Nat),
    bqEnqueueMany reqKey ⟨[(k, ⟨r, ws⟩)], true⟩ items =
      ⟨[(k, ⟨(items.map (·.1)).getLastD r, ws ++ items.map (·.2)⟩)], true⟩ := by
  intro items
  induction items with
  | nil => intro _ r ws; simp [bqEnqueueMany]
  | cons p t ih =>
      intro hkeys r ws
      have hp : reqKey p.1 = k := hkeys p (List.mem_cons_self _ _)
      have hne : ¬ reqKey p.1 = "" := by rw [hp]; exact hk
      have step :
          bqEnqueueState reqKey (⟨[(k, ⟨r, ws⟩)], true⟩ : BQState Req) p.1 p.2 =
            ⟨[(k, ⟨p.1, ws ++ [p.2]⟩)], true⟩ := by
        simp [bqEnqueueState, bqInsert, hne, hp, hk]
      have ht : ∀ q ∈ t, reqKey q.1 = k := fun q hq => hkeys q (List.mem_cons_of_mem _ hq)
      calc bqEnqueueMany reqKey ⟨[(k, ⟨r, ws⟩)], true⟩ (p :: t)
          = bqEnqueueMany reqKey ⟨[(k, ⟨p.1, ws ++ [p.2]⟩)], true⟩ t := by
            simp [bqEnqueueMany, step]
        _ = ⟨[(k, ⟨(t.map (·.1)).getLastD p.1, (ws ++ [p.2]) ++ t.map (·.2)⟩)], true⟩ :=
            ih ht p.1 (ws ++ [p.2])
        _ = ⟨[(k, ⟨((p :: t).map (·.1)).getLastD r, ws ++ (p :: t).map (·.2)⟩)], true⟩ := by
            simp only [List.map_cons, List.getLastD_cons, List.append_assoc,
              List.cons_append, List.nil_append]

/-- From the empty queue, a non-empty run of enqueues all carrying key `k ≠ ""`
leaves exactly one pending entry: key `k`, the last request, all waiters in
order, and the timer armed. -/

lemma bqEnqueueMany_from_empty {Req : Type} (reqKey : Req → String)
    (k : String) (hk : k ≠ "") (p : Req × Nat) (t : List (Req × Nat))
    (hkeys : ∀ q ∈ p :: t, reqKey q.1 = k) :
    bqEnqueueMany reqKey (BQState.init Req) (p :: t) =
      ⟨[(k, ⟨((p :: t).map (·.1)).getLastD p.1, (p :: t).map (·.2)⟩)], true⟩ := by
  have hp : reqKey p.1 = k := hkeys p (List.mem_cons_self _ _)
  have hne : ¬ reqKey p.1 = "" := by rw [hp]; exact hk
  have step : bqEnqueueState reqKey (BQState.init Req) p.1 p.2 =
      ⟨[(k, ⟨p.1, [p.2]⟩)], true⟩ := by
    simp [bqEnqueueState, bqInsert, hne, hp, hk, BQState.init]
  have ht : ∀ q ∈ t, reqKey q.1 = k := fun q hq => hkeys q (List.mem_cons_of_mem _ hq)
  calc bqEnqueueMany reqKey (BQState.init Req) (p :: t)
      = bqEnqueueMany reqKey ⟨[(k, ⟨p.1, [p.2]⟩)], true⟩ t := by
        simp [bqEnqueueMany, step]
    _ = ⟨[(k, ⟨(t.map (·.1)).getLastD p.1, [p.2] ++ t.map (·.2)⟩)], true⟩ :=
        bqEnqueueMany_single_key reqKey k hk t ht p.1 [p.2]
    _ = ⟨[(k, ⟨((p :: t).map (·.1)).getLastD p.1, (p :: t).map (·.2)⟩)], true⟩ := by
        simp only [List.map_cons, List.getLastD_cons, List.cons_append, List.nil_append]

/-- Flushing a queue whose pending map is a single entry, when the dispatcher
succeeds and its mapping contains the entry's key: one dispatcher call with
exactly that entry's request, and every resolver of the entry resolves with
the mapping's result. -/

lemma bqFlush_single_entry_ok {Req Res E : Type} {k : String} {ws : List Nat}
    {b : Bool} (D : List Req → Except E (String → Option Res)) (r : Req)
    (m : String → Option Res) (v : Res) (hD : D [r] = .ok m) (hm : m k = some v) :
    bqFlush D ⟨[(k, ⟨r, ws⟩)], b⟩ =
      ⟨⟨[], false⟩, [[r]], ws.map fun w => (w, Outcome.ok v)⟩ := by
  simp [bqFlush, hD, hm]

/-- C1: N ≥ 1 enqueues carrying the same non-empty key into the
KeyedLatestQueue (`BatchQueryQueue`) within one batch window: the flush invokes
the dispatcher with exactly one request for that key — the most recently
enqueued one — and, when the dispatcher's mapping associates a result with that
key, all N callers' waiters resolve with that identical result; the queue is
left empty. -/

theorem C1_keyedLatest_same_key_coalesces {Req Res E : Type}
    (reqKey : Req → String) (k : String) (items : List (Req × Nat))
    (m : String → Option Res) (D : List Req → Except E (String → Option Res))
    (v : Res) (hne : items ≠ []) (hk : k ≠ "")
    (hkeys : ∀ p ∈ items, reqKey p.1 = k)
    (hD : D [(items.getLast hne).1] = .ok m) (hm : m k = some v) :
    (bqFlush D (bqEnqueueMany reqKey (BQState.init Req) items)).calls
        = [[(items.getLast hne).1]] ∧
    (bqFlush D (bqEnqueueMany reqKey (BQState.init Req) items)).settled
        = items.map (fun p => (p.2, Outcome.ok v)) ∧
    (bqFlush D (bqEnqueueMany reqKey (BQState.init Req) items)).state
        = BQState.init Req := by
  match items, hne with
  | p :: t, hne =>
    have hlast : ((p :: t).map (·.1)).getLastD p.1 = ((p :: t).getLast hne).1 := by
      rw [List.getLast_eq_getLastD]
      rw [show ((p :: t).map (·.1)).getLastD p.1 = (t.map (·.1)).getLastD p.1 by
        simp only [List.map_cons, List.getLastD_cons]]
      exact getLastD_map (·.1) t p
    have hstate : bqEnqueueMany reqKey (BQState.init Req) (p :: t) =
        ⟨[(k, ⟨((p :: t).getLast hne).1, (p :: t).map (·.2)⟩)], true⟩ := by
      rw [bqEnqueueMany_from_empty reqKey k hk p t hkeys, hlast]
    rw [hstate, bqFlush_single_entry_ok D ((p :: t).getLast hne).1 m v hD hm]
    refine ⟨rfl, ?_, rfl⟩
    simp [List.map_map, Function.comp]

/-- C2: enqueue payloads `P1` then `P2` into the SinglePayloadQueue within one
batch window: the flush invokes the dispatcher exactly once and only with `P2`
(`P1` never reaches the dispatcher), and both callers' waiters resolve with the
one dispatch result.  First conjunct: the client `LatestPayloadQueue`; second
conjunct: the server `createSelectionBatcher`, whose inline dispatch commits
`P2` to the store and resolves both waiters with it. -/

theorem C2_single_payload_last_write_wins {P R E : Type}
    (D : P → Except E R) (p1 p2 : P) (w1 w2 : Nat) (v : R) (hD : D p2 = .ok v)
    (store nsel1 nsel2 : List Int) (u1 u2 : Nat) :
    lpFlush D (lpEnqueue (lpEnqueue (LPState.init P) p1 w1) p2 w2) =
      ⟨LPState.init P, [p2], [(w1, Outcome.ok v), (w2, Outcome.ok v)]⟩ ∧
    selFlush store (selEnqueue (selEnqueue SelState.init nsel1 u1) nsel2 u2) =
      (SelState.init, nsel2, [(u1, nsel2), (u2, nsel2)]) := by
  constructor
  · simp [lpEnqueue, lpFlush, LPState.init, hD]
  · simp [selEnqueue, selFlush, SelState.init]

/-- Witness for `C2_single_payload_last_write_wins` at a concrete input. -/

theorem C2_witness :
    lpFlush (fun p : Nat => (Except.ok (p + 1) : Except Unit Nat))
        (lpEnqueue (lpEnqueue (LPState.init Nat) 10 0) 20 1) =
      ⟨LPState.init Nat, [20], [(0, Outcome.ok 21), (1, Outcome.ok 21)]⟩ ∧
    selFlush [3] (selEnqueue (selEnqueue SelState.init [1] 0) [2, 1] 1) =
      (SelState.init, [2, 1], [(0, [2, 1]), (1, [2, 1])]) :=
  C2_single_payload_last_write_wins (fun p : Nat => (Except.ok (p + 1) : Except Unit Nat))
    10 20 0 1 21 rfl [3] [1] [2, 1] 0 1

/-- The classification loop is a pointwise pass: its accumulated `toAdd` set
is the set of candidates the per-item rules accept, and its rejected list is
the per-item rejected records in candidate order — each candidate's class is
independent of its position and of the other candidates. -/

lemma classify_foldl (baseMax : Int) (A : Finset Int) :
    ∀ (l : List Int) (acc : Finset Int × List (Int × String)),
    l.foldl (classifyStep baseMax A) acc =
      (acc.1 ∪ (l.filter fun raw =>
          specClassify baseMax A raw = .accepted).toFinset,
       acc.2 ++ l.filterMap (specReject baseMax A)) := by
  intro l
  induction l with
  | nil => intro acc; simp
  | cons a t ih =>
      intro acc
      by_cases h1 : a ≤ 0
      · simp [classifyStep, specClassify, specReject, reasonOf, h1, ih,
          List.append_assoc]
      · by_cases h2 : 1 ≤ a ∧ a ≤ baseMax
        · simp [classifyStep, specClassify, specReject, reasonOf, h1, h2, ih,
            List.append_assoc]
        · by_cases h3 : a ∈ A
          · simp [classifyStep, specClassify, specReject, reasonOf, h1, h2, h3,
              ih, List.append_assoc]
          · simp [classifyStep, specClassify, specReject, reasonOf, h1, h2, h3,
              ih, Finset.insert_union, Finset.union_insert]

/-- `createAddBatcher.flush` in spec form: one per-item classification pass,
accepted set deduplicated and sorted, one batch union into the overflow set,
per-caller slices by each request's own `idSet`. -/

lemma abFlush_spec (baseMax : Int) (A : Finset Int) (s : ABState) :
    abFlush baseMax A s =
      (let requested := s.pendingRequests.flatMap (·.ids)
       let acceptedSet := (requested.filter fun raw =>
          specClassify baseMax A raw = .accepted).toFinset
       let rejectedGlobal := requested.filterMap (specReject baseMax A)
       let added := acceptedSet.sort (· ≤ ·)
       ⟨A ∪ acceptedSet, ⟨[], false⟩, added, rejectedGlobal,
        s.pendingRequests.map fun req =>
          (req.waiter,
           ⟨added.filter fun a => decide (a ∈ req.idSet),
            rejectedGlobal.filter fun p => decide (p.1 ∈ req.idSet)⟩)⟩) := by
  by_cases h : s.pendingRequests = []
  · simp [abFlush, h]
  · have hne : s.pendingRequests.isEmpty = false := by
      simp [List.isEmpty_iff, h]
    simp only [abFlush, hne, Bool.false_eq_true, if_false, classify_foldl,
      Finset.empty_union, List.nil_append]

/-- C4: at every flush of the AccumulatingSetQueue, each candidate of the
batch is classified exactly once by the per-item rules in their total order —
not a positive integer ⟹ format rejection; in the base range
`1..1_000_000` ⟹ rejected as already present in the base set; already in the
overflow set ⟹ rejected as already added; every other item accepted — and the
accepted items are deduplicated, sorted ascending, and merged into the
overflow set as a single batch union. -/

theorem C4_flush_classifies_each_candidate_once (A : Finset Int) (s : ABState) :
    abFlush BASE_MAX_ID A s =
      (let requested := s.pendingRequests.flatMap (·.ids)
       let acceptedSet := (requested.filter fun raw =>
          specClassify BASE_MAX_ID A raw = .accepted).toFinset
       let rejectedGlobal := requested.filterMap (specReject BASE_MAX_ID A)
       let added := acceptedSet.sort (· ≤ ·)
       ⟨A ∪ acceptedSet, ⟨[], false⟩, added, rejectedGlobal,
        s.pendingRequests.map fun req =>
          (req.waiter,
           ⟨added.filter fun a => decide (a ∈ req.idSet),
            rejectedGlobal.filter fun p => decide (p.1 ∈ req.idSet)⟩)⟩) :=
  abFlush_spec BASE_MAX_ID A s

/-- C3: callers 1 and 2 submit `{5, 7}` and `{5}` in one window of the
AccumulatingSetQueue, where 5 and 7 are neither in the base range nor already
in the overflow set: the batch accepts `[5, 7]`; caller 1 receives
`accepted = [5, 7]`, caller 2 receives `accepted = [5]` (each accepted item
exactly once per requesting caller, nothing rejected); and the overflow set is
mutated once, by the single batch union with `{5, 7}`. -/

theorem C3_per_caller_slices (baseMax : Int) (A : Finset Int) (w1 w2 : Nat)
    (h5b : ¬ (1 ≤ (5 : Int) ∧ (5 : Int) ≤ baseMax))
    (h7b : ¬ (1 ≤ (7 : Int) ∧ (7 : Int) ≤ baseMax))
    (h5a : (5 : Int) ∉ A) (h7a : (7 : Int) ∉ A) :
    (abFlush baseMax A
        (abEnqueue (abEnqueue ABState.init [5, 7] w1) [5] w2)).batchAdded
        = [5, 7] ∧
    (abFlush baseMax A
        (abEnqueue (abEnqueue ABState.init [5, 7] w1) [5] w2)).responses
        = [(w1, ⟨[5, 7], []⟩), (w2, ⟨[5], []⟩)] ∧
    (abFlush baseMax A
        (abEnqueue (abEnqueue ABState.init [5, 7] w1) [5] w2)).addedIds
        = A ∪ {5, 7} := by
  have hc5 : specClassify baseMax A 5 = .accepted := by
    unfold specClassify
    rw [if_neg (by norm_num : ¬ (5 : Int) ≤ 0), if_neg h5b, if_neg h5a]
  have hc7 : specClassify baseMax A 7 = .accepted := by
    unfold specClassify
    rw [if_neg (by norm_num : ¬ (7 : Int) ≤ 0), if_neg h7b, if_neg h7a]
  have hstate : abEnqueue (abEnqueue ABState.init [5, 7] w1) [5] w2 =
      ⟨[⟨[5, 7], {5, 7}, w1⟩, ⟨[5], {5}, w2⟩], true⟩ := by
    simp [abEnqueue, ABState.init]
  have hfil : (([5, 7, 5] : List Int).filter fun raw =>
      specClassify baseMax A raw = .accepted) = [5, 7, 5] := by
    simp [List.filter, hc5, hc7]
  have hrej : ([5, 7, 5] : List Int).filterMap (specReject baseMax A) = [] := by
    simp [List.filterMap, specReject, hc5, hc7, reasonOf]
  have htf : ([5, 7, 5] : List Int).toFinset = ({5, 7} : Finset Int) := by decide
  have hsort : (({5, 7} : Finset Int).sort (· ≤ ·)) = [5, 7] := by
    rw [Finset.sort_insert (· ≤ ·) (by decide) (by decide), Finset.sort_singleton]
  rw [hstate, abFlush_spec]
  simp only [List.flatMap, List.map_cons, List.map_nil, List.flatten,
    List.cons_append, List.nil_append, List.append_nil]
  rw [hfil, hrej, htf, hsort]
  refine ⟨rfl, ?_, rfl⟩
  simp

/-- Witness for `C3_per_caller_slices` at `baseMax = 4`, empty overflow set,
waiters 0 and 1. -/

theorem C3_witness :
    (abFlush 4 ∅ (abEnqueue (abEnqueue ABState.init [5, 7] 0) [5] 1)).batchAdded
        = [5, 7] ∧
    (abFlush 4 ∅ (abEnqueue (abEnqueue ABState.init [5, 7] 0) [5] 1)).responses
        = [(0, ⟨[5, 7], []⟩), (1, ⟨[5], []⟩)] ∧
    (abFlush 4 ∅ (abEnqueue (abEnqueue ABState.init [5, 7] 0) [5] 1)).addedIds
        = ∅ ∪ {5, 7} :=
  C3_per_caller_slices 4 ∅ 0 1 (by decide) (by decide) (by decide) (by decide)

lemma abFlush_addedIds_mono (baseMax : Int) (A : Finset Int) (s : ABState) :
    A ⊆ (abFlush baseMax A s).addedIds := by
  rw [abFlush_spec]
  exact Finset.subset_union_left

lemma runAddCycles_mono (baseMax : Int) :
    ∀ (cycles : List ABState) (A : Finset Int),
      A ⊆ runAddCycles baseMax A cycles := by
  intro cycles
  induction cycles with
  | nil => intro A; simp [runAddCycles]
  | cons s t ih =>
      intro A
      refine Finset.Subset.trans (abFlush_addedIds_mono baseMax A s) ?_
      simpa [runAddCycles] using ih (abFlush baseMax A s).addedIds

/-- Membership in a flush's batch `added` list: the id was requested in the
cycle and the per-item rules accept it against the pre-flush overflow set. -/

lemma mem_batchAdded (baseMax : Int) (A : Finset Int) (s : ABState) (id : Int) :
    id ∈ (abFlush baseMax A s).batchAdded ↔
      id ∈ s.pendingRequests.flatMap (·.ids) ∧
        specClassify baseMax A id = .accepted := by
  rw [abFlush_spec]
  simp [Finset.mem_sort, List.mem_filter]

lemma mem_addedIds_of_batchAdded {baseMax : Int} {A : Finset Int} {s : ABState}
    {id : Int} (h : id ∈ (abFlush baseMax A s).batchAdded) :
    id ∈ (abFlush baseMax A s).addedIds := by
  rw [abFlush_spec] at h ⊢
  simp only [Finset.mem_sort] at h
  exact Finset.mem_union_right _ h

lemma accepted_fields {baseMax : Int} {A : Finset Int} {id : Int}
    (h : specClassify baseMax A id = .accepted) :
    ¬ id ≤ 0 ∧ ¬ (1 ≤ id ∧ id ≤ baseMax) ∧ id ∉ A := by
  by_cases h1 : id ≤ 0
  · simp [specClassify, h1] at h
  · by_cases h2 : 1 ≤ id ∧ id ≤ baseMax
    · simp [specClassify, h1, h2] at h
    · by_cases h3 : id ∈ A
      · simp [specClassify, h1, h2, h3] at h
      · exact ⟨h1, h2, h3⟩

lemma classify_already_added {baseMax : Int} {A : Finset Int} {id : Int}
    (h1 : ¬ id ≤ 0) (h2 : ¬ (1 ≤ id ∧ id ≤ baseMax)) (h3 : id ∈ A) :
    specClassify baseMax A id = .rejectedAlreadyAdded := by
  simp [specClassify, h1, h2, h3]

lemma mem_rejectedGlobal_of {baseMax : Int} {A : Finset Int} {s : ABState}
    {id : Int} (hreq : id ∈ s.pendingRequests.flatMap (·.ids))
    (hcl : specClassify baseMax A id = .rejectedAlreadyAdded) :
    (id, alreadyAddedReason) ∈ (abFlush baseMax A s).rejectedGlobal := by
  rw [abFlush_spec]
  exact List.mem_filterMap.2 ⟨id, hreq, by simp [specReject, hcl, reasonOf]⟩

/-- C7: once an identifier has been accepted into the overflow set by some
flush, every re-submission of it in any later cycle — whatever flush cycles
happen in between — is rejected with the "already added" reason and is never
accepted again (it never re-enters a batch's `added` list; the overflow set,
being a set, never records it twice). -/

theorem C7_resubmission_rejected_already_added (baseMax : Int) (A : Finset Int)
    (s1 : ABState) (id : Int) (cycles : List ABState) (s2 : ABState)
    (hacc : id ∈ (abFlush baseMax A s1).batchAdded)
    (hreq : id ∈ s2.pendingRequests.flatMap (·.ids)) :
    (id, alreadyAddedReason) ∈
      (abFlush baseMax
        (runAddCycles baseMax (abFlush baseMax A s1).addedIds cycles)
        s2).rejectedGlobal ∧
    id ∉ (abFlush baseMax
        (runAddCycles baseMax (abFlush baseMax A s1).addedIds cycles)
        s2).batchAdded := by
  have hcl1 : specClassify baseMax A id = .accepted :=
    ((mem_batchAdded baseMax A s1 id).1 hacc).2
  obtain ⟨h1, h2, _⟩ := accepted_fields hcl1
  have hidA : id ∈ runAddCycles baseMax (abFlush baseMax A s1).addedIds cycles :=
    runAddCycles_mono baseMax cycles _ (mem_addedIds_of_batchAdded hacc)
  have hcl2 : specClassify baseMax
      (runAddCycles baseMax (abFlush baseMax A s1).addedIds cycles) id =
        .rejectedAlreadyAdded := classify_already_added h1 h2 hidA
  refine ⟨mem_rejectedGlobal_of hreq hcl2, fun hmem => ?_⟩
  have := ((mem_batchAdded baseMax _ s2 id).1 hmem).2
  rw [hcl2] at this
  exact absurd this (by decide)

/-- Witness for `C7_resubmission_rejected_already_added`: id `1000005`
(outside the base range `1..1_000_000`) accepted from an empty overflow set by
waiter 0's cycle, then re-submitted by waiter 1 with no cycles in between. -/

theorem C7_witness :
    (1000005 : Int) ∈
        (abFlush BASE_MAX_ID ∅ (abEnqueue ABState.init [1000005] 0)).batchAdded ∧
    ((1000005 : Int), alreadyAddedReason) ∈
        (abFlush BASE_MAX_ID
          (runAddCycles BASE_MAX_ID
            (abFlush BASE_MAX_ID ∅ (abEnqueue ABState.init [1000005] 0)).addedIds [])
          (abEnqueue ABState.init [1000005] 1)).rejectedGlobal ∧
    (1000005 : Int) ∉
        (abFlush BASE_MAX_ID
          (runAddCycles BASE_MAX_ID
            (abFlush BASE_MAX_ID ∅ (abEnqueue ABState.init [1000005] 0)).addedIds [])
          (abEnqueue ABState.init [1000005] 1)).batchAdded :=
  have hacc : (1000005 : Int) ∈
      (abFlush BASE_MAX_ID ∅ (abEnqueue ABState.init [1000005] 0)).batchAdded :=
    (mem_batchAdded BASE_MAX_ID ∅ (abEnqueue ABState.init [1000005] 0) 1000005).2
      (by decide)
  ⟨hacc,
   (C7_resubmission_rejected_already_added BASE_MAX_ID ∅
      (abEnqueue ABState.init [1000005] 0) 1000005 []
      (abEnqueue ABState.init [1000005] 1) hacc (by decide)).1,
   (C7_resubmission_rejected_already_added BASE_MAX_ID ∅
      (abEnqueue ABState.init [1000005] 0) 1000005 []
      (abEnqueue ABState.init [1000005] 1) hacc (by decide)).2⟩

/-- Accumulated enqueues of `createAddBatcher` keep one pending entry per
call, in call order, each carrying the caller's own ids and single waiter. -/

lemma abEnqueueMany_pending :
    ∀ (calls : List (List Int × Nat)) (s : ABState),
    (abEnqueueMany s calls).pendingRequests =
      s.pendingRequests ++ calls.map fun c => ⟨c.1, c.1.toFinset, c.2⟩ := by
  intro calls
  induction calls with
  | nil => intro s; simp [abEnqueueMany]
  | cons c t ih =>
      intro s
      have : abEnqueueMany s (c :: t) =
          abEnqueueMany ⟨s.pendingRequests ++ [⟨c.1, c.1.toFinset, c.2⟩], true⟩ t := by
        simp [abEnqueueMany, abEnqueue]
      rw [this, ih]
      simp

/-- C8 counterexample: on the client `AddQueue` (cited by the claim alongside
the server batcher), two enqueue calls for the same id `5` (waiters 0 and 1)
leave ONE pending entry holding BOTH waiters — not one entry per call with its
own single waiter, and the dispatcher input would carry id 5 once for two
calls.  This falsifies the claim as stated. -/

theorem C8_counterexample :
    (aqEnqueueState (aqEnqueueState AQState.init 5 0) 5 1).pending
        = [(5, [0, 1])] ∧
    (aqEnqueueState (aqEnqueueState AQState.init 5 0) 5 1).pending.length = 1 := by
  decide

/-- C8 (amended): the server-side AccumulatingSetQueue (`createAddBatcher`)
keeps one pending entry per enqueue call, in call order, each with its own
single waiter, never merged or deduplicated against other concurrent calls
even for overlapping or identical items; the client-side `AddQueue`, however,
coalesces by identifier: a second call for the same id joins the existing
entry's waiter list instead of creating a new entry. -/

theorem C8_per_call_entries (calls : List (List Int × Nat)) (id : Int)
    (w1 w2 : Nat) (hid : 0 < id) :
    (abEnqueueMany ABState.init calls).pendingRequests =
      (calls.map fun c => ⟨c.1, c.1.toFinset, c.2⟩) ∧
    (aqEnqueueState (aqEnqueueState AQState.init id w1) id w2).pending
      = [(id, [w1, w2])] := by
  constructor
  · rw [abEnqueueMany_pending]
    simp [ABState.init]
  · have h : ¬ id ≤ 0 := not_le.2 hid
    simp [aqEnqueueState, aqInsert, h, AQState.init]

/-- Witness for `C8_per_call_entries`: two overlapping calls `[5,7]`, `[5]`
into the server batcher, and two same-id calls for id 6 into the client
queue. -/

theorem C8_witness :
    ((abEnqueueMany ABState.init [([5, 7], 0), ([5], 1)]).pendingRequests =
      ([([5, 7], 0), ([5], 1)].map fun c : List Int × Nat =>
        (⟨c.1, c.1.toFinset, c.2⟩ : AReq))) ∧
    (0 : Int) < 6 ∧
    (aqEnqueueState (aqEnqueueState AQState.init 6 2) 6 3).pending = [(6, [2, 3])] :=
  ⟨(C8_per_call_entries [([5, 7], 0), ([5], 1)] 6 2 3 (by decide)).1,
   by decide,
   (C8_per_call_entries [([5, 7], 0), ([5], 1)] 6 2 3 (by decide)).2⟩

lemma sanitize_foldl_eq_rec (baseMax : Int) (A : Finset Int) :
    ∀ (ids : List Int) (seen : Finset Int) (out : List Int),
    (ids.foldl (sanitizeStep baseMax A) (seen, out)).2 =
      out ++ sanitizeRec baseMax A seen ids := by
  intro ids
  induction ids with
  | nil => intro seen out; simp [sanitizeRec]
  | cons r t ih =>
      intro seen out
      by_cases hval : hasId baseMax A r = true
      · have hpos : ¬ r ≤ 0 := by
          intro hle
          simp [hasId, hle] at hval
        by_cases hseen : r ∈ seen
        · have : sanitizeStep baseMax A (seen, out) r = (seen, out) := by
            simp [sanitizeStep, hpos, hval, hseen]
          simp only [List.foldl_cons, this, ih, sanitizeRec]
          rw [if_neg (by simp [hseen])]
        · have : sanitizeStep baseMax A (seen, out) r =
              (insert r seen, out ++ [r]) := by
            simp [sanitizeStep, hpos, hval, hseen]
          simp only [List.foldl_cons, this, ih, sanitizeRec]
          rw [if_pos ⟨hval, hseen⟩, List.append_assoc]
          rfl
      · have : sanitizeStep baseMax A (seen, out) r = (seen, out) := by
          by_cases hle : r ≤ 0
          · simp [sanitizeStep, hle]
          · simp [sanitizeStep, hle, hval]
        simp only [List.foldl_cons, this, ih, sanitizeRec]
        rw [if_neg (by simp [hval])]

lemma firstDedup_nil : firstDedup [] = [] := by
  simp [firstDedup]

lemma firstDedup_cons (a : Int) (l : List Int) :
    firstDedup (a :: l) = a :: firstDedup (l.filter fun x => decide (x ≠ a)) := by
  simp [firstDedup]

lemma sanitizeRec_eq_firstDedup (baseMax : Int) (A : Finset Int) :
    ∀ (ids : List Int) (seen : Finset Int),
    sanitizeRec baseMax A seen ids =
      firstDedup ((ids.filter fun r => hasId baseMax A r).filter
        fun r => decide (r ∉ seen)) := by
  intro ids
  induction ids with
  | nil => intro seen; simp [sanitizeRec, firstDedup]
  | cons r t ih =>
      intro seen
      by_cases hval : hasId baseMax A r = true
      · by_cases hseen : r ∈ seen
        · rw [show sanitizeRec baseMax A seen (r :: t) =
              sanitizeRec baseMax A seen t by
            simp [sanitizeRec, hseen]]
          rw [ih seen]
          congr 1
          simp [List.filter, hval, hseen]
        · rw [show sanitizeRec baseMax A seen (r :: t) =
              r :: sanitizeRec baseMax A (insert r seen) t by
            simp [sanitizeRec, hval, hseen]]
          rw [ih (insert r seen)]
          rw [show ((r :: t).filter fun x => hasId baseMax A x).filter
                (fun x => decide (x ∉ seen)) =
              r :: ((t.filter fun x => hasId baseMax A x).filter
                fun x => decide (x ∉ seen)) by
            simp [List.filter, hval, hseen]]
          rw [firstDedup_cons]
          congr 1
          simp only [List.filter_filter]
          congr 1
          apply List.filter_congr
          intro x _
          rcases Decidable.em (x = r) with hxr | hxr
          · simp [hxr, Finset.mem_insert]
          · simp [hxr, Finset.mem_insert]
      · rw [show sanitizeRec baseMax A seen (r :: t) =
            sanitizeRec baseMax A seen t by
          simp [sanitizeRec, hval]]
        rw [ih seen]
        congr 2
        simp [List.filter, hval]

lemma mem_firstDedup : ∀ (l : List Int) (x : Int), x ∈ firstDedup l ↔ x ∈ l := by
  intro l
  induction l using firstDedup.induct with
  | case1 => intro x; rw [firstDedup_nil]
  | case2 a t ih =>
      intro x
      rw [firstDedup_cons]
      by_cases hx : x = a
      · subst hx; simp
      · simp only [List.mem_cons, hx, false_or]
        rw [ih x]
        simp [List.mem_filter, hx]

lemma nodup_firstDedup : ∀ (l : List Int), (firstDedup l).Nodup := by
  intro l
  induction l using firstDedup.induct with
  | case1 => rw [firstDedup_nil]; exact List.nodup_nil
  | case2 a t ih =>
      rw [firstDedup_cons]
      refine List.nodup_cons.2 ⟨fun hmem => ?_, ih⟩
      rw [mem_firstDedup, List.mem_filter] at hmem
      have hcon : a ≠ a := by simpa using hmem.2
      exact hcon rfl

lemma hasId_iff (baseMax : Int) (A : Finset Int) (r : Int) :
    hasId baseMax A r = true ↔ 0 < r ∧ (r ≤ baseMax ∨ r ∈ A) := by
  by_cases h1 : r ≤ 0
  · simp [hasId, h1]
  · by_cases h2 : 1 ≤ r ∧ r ≤ baseMax
    · simp [hasId, h1, h2]; omega
    · simp [hasId, h1, h2]
      constructor
      · intro h3; exact ⟨by omega, Or.inr h3⟩
      · rintro ⟨hpos, h3 | h3⟩
        · exact absurd ⟨by omega, h3⟩ h2
        · exact h3

/-- C9: after every `POST /api/selection` with an arbitrary body, the stored
selection holds only positive ids existing in the identifier space (base range
`1..baseMax` or the overflow set), holds no duplicates, and equals the
first-occurrence deduplication of the existing ids of the body in body order —
malformed, unknown and duplicate ids are silently dropped, never an error. -/

theorem C9_selection_sanitized (baseMax : Int) (A : Finset Int)
    (body : List Int) :
    (∀ x ∈ postSelection baseMax A body, 0 < x ∧ (x ≤ baseMax ∨ x ∈ A)) ∧
    (postSelection baseMax A body).Nodup ∧
    postSelection baseMax A body =
      firstDedup (body.filter fun r => hasId baseMax A r) := by
  have hform : postSelection baseMax A body =
      firstDedup (body.filter fun r => hasId baseMax A r) := by
    show (body.foldl (sanitizeStep baseMax A) (∅, [])).2 = _
    rw [sanitize_foldl_eq_rec baseMax A body ∅ [],
      sanitizeRec_eq_firstDedup baseMax A body ∅, List.nil_append]
    congr 1
    rw [show (body.filter fun r => hasId baseMax A r).filter
          (fun r => decide (r ∉ (∅ : Finset Int))) =
        (body.filter fun r => hasId baseMax A r).filter (fun _ => true) by
      apply List.filter_congr; intro x _; simp]
    simp
  refine ⟨?_, ?_, hform⟩
  · intro x hx
    rw [hform, mem_firstDedup, List.mem_filter] at hx
    exact (hasId_iff baseMax A x).1 hx.2
  · rw [hform]; exact nodup_firstDedup _

lemma considerStep_total (sel : Finset Int) (m : Int → Bool) (so sl : Nat) :
    ∀ (l : List Int) (acc : List Int × Nat),
    (l.foldl (considerStep sel m so sl) acc).2 =
      acc.2 + (l.countP fun id => decide (id ∉ sel) && m id) := by
  intro l
  induction l with
  | nil => intro acc; simp
  | cons a t ih =>
      intro acc
      by_cases h1 : a ∈ sel
      · have hstep : considerStep sel m so sl acc a = acc := by
          simp [considerStep, h1]
        simp only [List.foldl_cons, hstep, ih, List.countP_cons]
        simp [h1]
      · by_cases h2 : m a = true
        · have hstep : (considerStep sel m so sl acc a).2 = acc.2 + 1 := by
            simp [considerStep, h1, h2]
          simp only [List.foldl_cons, ih, List.countP_cons]
          rw [hstep]
          simp [h1, h2]
          omega
        · have hstep : considerStep sel m so sl acc a = acc := by
            simp [considerStep, h1, h2]
          simp only [List.foldl_cons, hstep, ih, List.countP_cons]
          simp [h1, h2]

lemma considerStep_items_unselected (sel : Finset Int) (m : Int → Bool)
    (so sl : Nat) :
    ∀ (l : List Int) (acc : List Int × Nat),
    (∀ x ∈ acc.1, x ∉ sel) →
    ∀ x ∈ (l.foldl (considerStep sel m so sl) acc).1, x ∉ sel := by
  intro l
  induction l with
  | nil => intro acc hacc; exact hacc
  | cons a t ih =>
      intro acc hacc
      refine ih (considerStep sel m so sl acc a) ?_
      intro x hx
      by_cases h1 : a ∈ sel
      · rw [show considerStep sel m so sl acc a = acc by
          simp [considerStep, h1]] at hx
        exact hacc x hx
      · by_cases h2 : m a = true
        · have : (considerStep sel m so sl acc a).1 = acc.1 ++ [a] ∨
              (considerStep sel m so sl acc a).1 = acc.1 := by
            by_cases h3 : so ≤ acc.2 ∧ acc.1.length < sl
            · exact Or.inl (by simp [considerStep, h1, h2, h3])
            · exact Or.inr (by simp [considerStep, h1, h2, h3])
          rcases this with h | h
          · rw [h] at hx
            rcases List.mem_append.1 hx with hx | hx
            · exact hacc x hx
            · rw [List.mem_singleton] at hx
              subst hx; exact h1
          · rw [h] at hx; exact hacc x hx
        · rw [show considerStep sel m so sl acc a = acc by
            simp [considerStep, h1, h2]] at hx
          exact hacc x hx

lemma mem_baseRange {baseMax x : Int} :
    x ∈ baseRange baseMax ↔ 1 ≤ x ∧ x ≤ baseMax := by
  rw [baseRange, List.mem_map]
  constructor
  · rintro ⟨n, hn, rfl⟩
    rw [List.mem_range] at hn
    omega
  · rintro ⟨h1, h2⟩
    exact ⟨(x - 1).toNat, List.mem_range.2 (by omega), by omega⟩

lemma nodup_baseRange (baseMax : Int) : (baseRange baseMax).Nodup := by
  rw [baseRange]
  refine List.Nodup.map ?_ (List.nodup_range _)
  intro a b h
  simp only at h
  omega

/-- C10: for every filter, offset and limit, the available-items query never
returns a selected identifier (its `items` are disjoint from the stored
selection) and its `total` is exactly the number of identifiers of the
identifier space — base range plus overflow set — that are unselected and
match the filter.  (The overflow set lies outside the base range, as every
flush of the add batcher guarantees.) -/

theorem C10_available_excludes_selection (baseMax : Int)
    (addedIds selectedLookup : Finset Int) (filter : String)
    (offset limit : Int) (hadd : ∀ a ∈ addedIds, baseMax < a) :
    (∀ x ∈ (buildAvailableResult baseMax addedIds selectedLookup filter
        offset limit).items, x ∉ selectedLookup) ∧
    (buildAvailableResult baseMax addedIds selectedLookup filter
        offset limit).total =
      (((baseRange baseMax).toFinset ∪ addedIds).filter fun id =>
        id ∉ selectedLookup ∧ matchesFilter filter id = true).card := by
  constructor
  · intro x hx
    exact considerStep_items_unselected selectedLookup (matchesFilter filter)
      (clampOffset offset) (clampLimit limit)
      (baseRange baseMax ++ addedIds.sort (· ≤ ·)) ([], 0)
      (by intro y hy; simp at hy) x hx
  · show (((baseRange baseMax ++ addedIds.sort (· ≤ ·)).foldl
        (considerStep selectedLookup (matchesFilter filter) (clampOffset offset)
          (clampLimit limit)) ([], 0)).2) = _
    rw [considerStep_total]
    have hnodup : (baseRange baseMax ++ addedIds.sort (· ≤ ·)).Nodup := by
      rw [List.nodup_append]
      refine ⟨nodup_baseRange baseMax, Finset.sort_nodup _ _, ?_⟩
      intro x hx hx'
      rw [mem_baseRange] at hx
      rw [Finset.mem_sort] at hx'
      exact absurd hx.2 (not_le.2 (hadd x hx'))
    rw [Nat.zero_add, List.countP_eq_length_filter]
    rw [show (baseRange baseMax).toFinset ∪ addedIds =
        (baseRange baseMax ++ addedIds.sort (· ≤ ·)).toFinset by
      rw [List.toFinset_append, Finset.sort_toFinset]]
    rw [show ((baseRange baseMax ++ addedIds.sort (· ≤ ·)).toFinset.filter
          fun id => id ∉ selectedLookup ∧ matchesFilter filter id = true) =
        ((baseRange baseMax ++ addedIds.sort (· ≤ ·)).toFinset.filter
          fun id => (decide (id ∉ selectedLookup) && matchesFilter filter id)
            = true) from Finset.filter_congr fun x _ => by simp]
    rw [← List.toFinset_filter, List.toFinset_card_of_nodup (hnodup.filter _)]

/-- Witness for `C10_available_excludes_selection`: base range `1..10`,
overflow `{12}`, selection `{3}`, filter `"1"`, offset 0, limit 5. -/

theorem C10_witness :
    (∀ a ∈ ({12} : Finset Int), (10 : Int) < a) ∧
    (∀ x ∈ (buildAvailableResult 10 {12} {3} "1" 0 5).items,
      x ∉ ({3} : Finset Int)) ∧
    (buildAvailableResult 10 {12} {3} "1" 0 5).total =
      (((baseRange 10).toFinset ∪ {12}).filter fun id =>
        id ∉ ({3} : Finset Int) ∧ matchesFilter "1" id = true).card :=
  ⟨by decide,
   (C10_available_excludes_selection 10 {12} {3} "1" 0 5 (by decide)).1,
   (C10_available_excludes_selection 10 {12} {3} "1" 0 5 (by decide)).2⟩

lemma foldl_invariant {σ ω : Type} (P : σ → Prop) (step : σ → ω → σ)
    (hstep : ∀ s op, P s → P (step s op)) :
    ∀ (ops : List ω) (s : σ), P s → P (ops.foldl step s) := by
  intro ops
  induction ops with
  | nil => intro s h; exact h
  | cons op t ih => intro s h; exact ih _ (hstep s op h)

lemma bqInsert_ne_nil {Req : Type} (reqKey : Req → String) (req : Req)
    (w : Nat) : ∀ (l : List (String × BQEntry Req)),
    bqInsert reqKey req w l ≠ [] := by
  intro l
  cases l with
  | nil => simp [bqInsert]
  | cons p rest =>
      obtain ⟨k, e⟩ := p
      by_cases h : k = reqKey req <;> simp [bqInsert, h]

lemma aqInsert_ne_nil (id : Int) (w : Nat) :
    ∀ (l : List (Int × List Nat)), aqInsert id w l ≠ [] := by
  intro l
  cases l with
  | nil => simp [aqInsert]
  | cons p rest =>
      obtain ⟨i, ws⟩ := p
      by_cases h : i = id <;> simp [aqInsert, h]

lemma bqFlush_state {Req Res E : Type}
    (D : List Req → Except E (String → Option Res)) (s : BQState Req) :
    (bqFlush D s).state = ⟨[], false⟩ := by
  simp only [bqFlush]
  split
  · rfl
  · cases D (s.pending.map fun p => p.2.request) <;> rfl

lemma aqFlush_state {E : Type} (D : List Int → Except E AddResponse)
    (s : AQState) : (aqFlush D s).state = ⟨[], false⟩ := by
  simp only [aqFlush]
  split
  · rfl
  · cases D (s.pending.map fun p => p.1) <;> rfl

lemma lpFlush_state {P R E : Type} (D : P → Except E R) (s : LPState P) :
    (lpFlush D s).state = ⟨none, false⟩ := by
  unfold lpFlush
  split
  · rfl
  · split <;> rfl

lemma abFlush_state (baseMax : Int) (A : Finset Int) (s : ABState) :
    (abFlush baseMax A s).state = ⟨[], false⟩ := by
  rw [abFlush_spec]

lemma selFlush_state (store : List Int) (s : SelState) :
    (selFlush store s).1 = ⟨none, [], false⟩ := by
  unfold selFlush
  split <;> rfl

lemma qbFlush_state (baseMax : Int) (addedIds selectedLookup : Finset Int)
    (selectedIds : List Int) (s : QBState) :
    (qbFlush baseMax addedIds selectedLookup selectedIds s).1 = ⟨[], false⟩ := by
  unfold qbFlush
  split <;> rfl

/-- C6: for each of the six queue instances (client `BatchQueryQueue`,
`AddQueue`, `LatestPayloadQueue`; server `createQueryBatcher`,
`createSelectionBatcher`, `createAddBatcher`), every state reachable from the
initial state by enqueue/fire steps has its single timer handle armed exactly
when its pending state is non-empty; at most one timer is outstanding by
construction (the handle is one slot, and `schedule()` never arms an armed
timer). -/

theorem C6_timer_iff_pending_nonempty {Req Res E P R : Type}
    (reqKey : Req → String) (baseMax : Int) :
    (∀ (ops : List (QOp (Req × Nat)
        (List Req → Except E (String → Option Res)))),
      (ops.foldl (fun s op => bqStep reqKey s op) (BQState.init Req)).timer
          = true ↔
        (ops.foldl (fun s op => bqStep reqKey s op)
          (BQState.init Req)).pending ≠ []) ∧
    (∀ (ops : List (QOp (Int × Nat) (List Int → Except E AddResponse))),
      (ops.foldl (fun s op => aqStep s op) AQState.init).timer = true ↔
        (ops.foldl (fun s op => aqStep s op) AQState.init).pending ≠ []) ∧
    (∀ (ops : List (QOp (P × Nat) (P → Except E R))),
      (ops.foldl (fun s op => lpStep s op) (LPState.init P)).timer = true ↔
        (ops.foldl (fun s op => lpStep s op) (LPState.init P)).pending
          ≠ none) ∧
    (∀ (ops : List (QOp (List Int × Nat) (Finset Int))),
      (ops.foldl (fun s op => abStep baseMax s op) ABState.init).timer
          = true ↔
        (ops.foldl (fun s op => abStep baseMax s op)
          ABState.init).pendingRequests ≠ []) ∧
    (∀ (ops : List (QOp (List Int × Nat) (List Int))),
      (ops.foldl (fun s op => selStep s op) SelState.init).timer = true ↔
        ((ops.foldl (fun s op => selStep s op) SelState.init).latest ≠ none ∨
         (ops.foldl (fun s op => selStep s op) SelState.init).resolvers
           ≠ [])) ∧
    (∀ (ops : List (QOp (List SQuery × Nat)
        (Finset Int × Finset Int × List Int))),
      (ops.foldl (fun s op => qbStep baseMax s op) QBState.init).timer
          = true ↔
        (ops.foldl (fun s op => qbStep baseMax s op) QBState.init).pending
          ≠ []) := by
  refine ⟨?_, ?_, ?_, ?_, ?_, ?_⟩
  · intro ops
    refine foldl_invariant
        (fun s : BQState Req => s.timer = true ↔ s.pending ≠ []) _
        ?_ ops (BQState.init Req) (by simp [BQState.init])
    intro s op hs
    cases op with
    | enq p =>
        rw [show bqStep reqKey s (.enq p) = bqEnqueueState reqKey s p.1 p.2
          from rfl]
        unfold bqEnqueueState
        by_cases hk : reqKey p.1 = ""
        · rw [if_pos hk]; exact hs
        · rw [if_neg hk]
          simpa using bqInsert_ne_nil reqKey p.1 p.2 s.pending
    | fire D =>
        rw [show bqStep reqKey s (.fire D) = (bqFlush D s).state from rfl,
          bqFlush_state]
        simp
  · intro ops
    refine foldl_invariant
        (fun s : AQState => s.timer = true ↔ s.pending ≠ []) _
        ?_ ops AQState.init (by simp [AQState.init])
    intro s op hs
    cases op with
    | enq p =>
        rw [show aqStep s (.enq p) = aqEnqueueState s p.1 p.2 from rfl]
        unfold aqEnqueueState
        by_cases hk : p.1 ≤ 0
        · rw [if_pos hk]; exact hs
        · rw [if_neg hk]
          simpa using aqInsert_ne_nil p.1 p.2 s.pending
    | fire D =>
        rw [show aqStep s (.fire D) = (aqFlush D s).state from rfl,
          aqFlush_state]
        simp
  · intro ops
    refine foldl_invariant
        (fun s : LPState P => s.timer = true ↔ s.pending ≠ none) _
        ?_ ops (LPState.init P) (by simp [LPState.init])
    intro s op hs
    cases op with
    | enq p =>
        rw [show lpStep s (.enq p) = lpEnqueue s p.1 p.2 from rfl]
        unfold lpEnqueue
        split <;> simp
    | fire D =>
        rw [show lpStep s (.fire D) = (lpFlush D s).state from rfl,
          lpFlush_state]
        simp
  · intro ops
    refine foldl_invariant
        (fun s : ABState => s.timer = true ↔ s.pendingRequests ≠ []) _
        ?_ ops ABState.init (by simp [ABState.init])
    intro s op hs
    cases op with
    | enq c => simp [abStep, abEnqueue]
    | fire A =>
        rw [show abStep baseMax s (.fire A) = (abFlush baseMax A s).state
          from rfl, abFlush_state]
        simp
  · intro ops
    refine foldl_invariant
        (fun s : SelState => s.timer = true ↔
          (s.latest ≠ none ∨ s.resolvers ≠ [])) _
        ?_ ops SelState.init (by simp [SelState.init])
    intro s op hs
    cases op with
    | enq c => simp [selStep, selEnqueue]
    | fire store =>
        rw [show selStep s (.fire store) = (selFlush store s).1 from rfl,
          selFlush_state]
        simp
  · intro ops
    refine foldl_invariant
        (fun s : QBState => s.timer = true ↔ s.pending ≠ []) _
        ?_ ops QBState.init (by simp [QBState.init])
    intro s op hs
    cases op with
    | enq c => simp [qbStep, qbEnqueue]
    | fire d =>
        rw [show qbStep baseMax s (.fire d) =
          (qbFlush baseMax d.1 d.2.1 d.2.2 s).1 from rfl, qbFlush_state]
        simp

/-- C5: for each of the three client queue variants, when the dispatcher of a
cycle fails with error `e`, every waiter captured in that cycle is failed with
that same error, none resolves successfully, and the queue state is left empty
— so waiters enqueued later belong to a fresh cycle and are untouched (the
flush settles exactly the captured waiters and nothing else). -/

theorem C5_dispatcher_failure_is_cycle_wide :
    (∀ (Req Res E : Type) (D : List Req → Except E (String → Option Res))
        (s : BQState Req) (e : E), s.pending ≠ [] →
        D (s.pending.map (·.2.request)) = .error e →
        bqFlush D s = ⟨⟨[], false⟩, [s.pending.map (·.2.request)],
          s.pending.flatMap fun p =>
            p.2.resolvers.map fun w => (w, .err (.dispatchFailed e))⟩) ∧
    (∀ (E : Type) (D : List Int → Except E AddResponse) (s : AQState) (e : E),
        s.pending ≠ [] → D (s.pending.map (·.1)) = .error e →
        aqFlush D s = ⟨⟨[], false⟩, [s.pending.map (·.1)],
          s.pending.flatMap fun p =>
            p.2.map fun w => (w, .err (.dispatchFailed e))⟩) ∧
    (∀ (P R E : Type) (D : P → Except E R) (payload : P) (ws : List Nat)
        (b : Bool) (e : E), D payload = .error e →
        lpFlush D ⟨some (payload, ws), b⟩ = ⟨⟨none, false⟩, [payload],
          ws.map fun w => (w, .err (.dispatchFailed e))⟩) := by
  refine ⟨?_, ?_, ?_⟩
  · intro Req Res E D s e hne hD
    rw [show s.pending ≠ [] ↔ s.pending.isEmpty = false by
      simp [List.isEmpty_iff]] at hne
    simp [bqFlush, hne, hD]
  · intro E D s e hne hD
    rw [show s.pending ≠ [] ↔ s.pending.isEmpty = false by
      simp [List.isEmpty_iff]] at hne
    simp [aqFlush, hne, hD]
  · intro P R E D payload ws b e hD
    simp [lpFlush, hD]

/-- Witness for `C5_dispatcher_failure_is_cycle_wide`: each clause applied at a
concrete one-entry cycle whose dispatcher fails with `e = 42`. -/

theorem C5_witness :
    @bqFlush Nat Nat Nat (fun _ => Except.error 42)
        ⟨[("k", ⟨5, [0, 1]⟩)], true⟩ =
      ⟨⟨[], false⟩, [[5]],
        [(0, Outcome.err (QueueError.dispatchFailed 42)),
         (1, Outcome.err (QueueError.dispatchFailed 42))]⟩ ∧
    aqFlush (fun _ => (Except.error 42 : Except Nat AddResponse))
        ⟨[(7, [2])], true⟩ =
      ⟨⟨[], false⟩, [[7]], [(2, Outcome.err (QueueError.dispatchFailed 42))]⟩ ∧
    lpFlush (fun _ : Nat => (Except.error 42 : Except Nat Nat))
        ⟨some (9, [3]), true⟩ =
      ⟨⟨none, false⟩, [9], [(3, Outcome.err (QueueError.dispatchFailed 42))]⟩ :=
  ⟨C5_dispatcher_failure_is_cycle_wide.1 Nat Nat Nat _ ⟨[("k", ⟨5, [0, 1]⟩)], true⟩ 42
      (by decide) rfl,
   C5_dispatcher_failure_is_cycle_wide.2.1 Nat _ ⟨[(7, [2])], true⟩ 42 (by decide) rfl,
   C5_dispatcher_failure_is_cycle_wide.2.2 Nat Nat Nat _ 9 [3] true 42 rfl⟩

/-- Witness for `C1_keyedLatest_same_key_coalesces` at a concrete input:
two requests `("k", 1)`, `("k", 2)` (key, payload) by waiters 0 and 1,
a dispatcher answering `7` for key `"k"`. -/

theorem C1_witness :
    (@bqFlush (String × Nat) Nat Unit
        (fun _ => .ok fun s => if s = "k" then some 7 else none)
        (bqEnqueueMany (fun p : String × Nat => p.1) (BQState.init _)
          [(("k", 1), 0), (("k", 2), 1)])).settled
      = [(0, Outcome.ok 7), (1, Outcome.ok 7)] :=
  (C1_keyedLatest_same_key_coalesces (fun p : String × Nat => p.1) "k"
      [(("k", 1), 0), (("k", 2), 1)]
      (fun s => if s = "k" then some 7 else none)
      (fun _ => .ok fun s => if s = "k" then some 7 else none) 7
      (by decide) (by decide) (by decide) rfl rfl).2.1
